import Mathlib

/-!
Verification of the lit-report core: the journal metric store and impact
scorer (`scripts/journal_impact.py`), the rate-limited retrying HTTP client
and paginated fetcher (`scripts/semantic_scholar_client.py`) and the
exclusion filter (`scripts/paper_utils.py`), shallowly embedded in Lean.

Modelling conventions:
- Python strings are Lean `String`s; `str.lower` and SQLite `LOWER` are both
  modelled by ASCII `Char.toLower` (the repository's data is ASCII).
- Python floats are modelled by exact rationals; `round(x, 3)` is modelled by
  round-half-to-even at three decimals, which is Python's rounding mode.
- The SQLite table is a list of rows in rowid order; `INSERT OR REPLACE`
  deletes any row with the same non-NULL primary key and appends the new row;
  `fetchone` without ORDER BY takes the first row in rowid order.
- Wall-clock time is a rational; a blocking call is modelled by an
  environment that supplies, for each attempt, its outcome and its duration.
-/

namespace LitReport

/-! ## String primitives -/

/-- ASCII lowercasing of a string, modelling both Python `str.lower` and
SQLite `LOWER` on the ASCII data this program handles. -/
def strLower (s : String) : String :=
  String.mk (s.toList.map Char.toLower)

/-- `containsSub needle hay`: `needle` occurs as a contiguous substring of
`hay`, i.e. Python's `needle in hay` on the underlying character lists. -/
def containsSub (needle : List Char) : List Char → Bool
  | [] => needle.isPrefixOf []
  | c :: rest => needle.isPrefixOf (c :: rest) || containsSub needle rest

/-- Python's `needle in hay` for strings. -/
def strContains (hay needle : String) : Bool :=
  containsSub needle.toList hay.toList

/-- One position of SQL `LIKE` matching: the pattern matches a prefix of the
text, with `_` matching any single character.  The patterns this program
builds contain no `%` (see `normalizeName`), so `_` is the only wildcard. -/
def likeHead : List Char → List Char → Bool
  | [], _ => true
  | _ :: _, [] => false
  | c :: p, d :: s => (c == '_' || c == d) && likeHead p s

/-- SQL `LIKE '%pat%'`: the pattern matches somewhere inside the text, with
`_` matching any single character. -/
def likeSub (pat : List Char) : List Char → Bool
  | [] => likeHead pat []
  | c :: rest => likeHead pat (c :: rest) || likeSub pat rest

/-- A character matched by Python's regex `\w` (ASCII): alphanumeric or
underscore. -/
def pyWordChar (c : Char) : Bool :=
  c.isAlphanum || c == '_'

/-- A character matched by Python's regex `\s` (ASCII). -/
def pySpaceChar (c : Char) : Bool :=
  c == ' ' || c == '\t' || c == '\n' || c == '\r' || c == '\x0b' || c == '\x0c'

/-- Collapse every run of whitespace to a single space
(`re.sub(r"\s+", " ", ...)` on an already stripped string).  The boolean
records whether the previous character was whitespace, so that only the
first character of each run is emitted (as a space). -/
def collapseSpacesAux : Bool → List Char → List Char
  | _, [] => []
  | prevSpace, c :: rest =>
    if pySpaceChar c then
      if prevSpace then collapseSpacesAux true rest
      else ' ' :: collapseSpacesAux true rest
    else c :: collapseSpacesAux false rest

def collapseSpaces (l : List Char) : List Char :=
  collapseSpacesAux false l

/-- Name normalization from `get_journal_by_name`:
lowercase, replace every character that is neither a word character nor
whitespace by a space, strip, and collapse whitespace runs to single
spaces.  Word characters include the underscore, which is kept. -/
def normalizeName (name : String) : String :=
  let lowered := (strLower name).toList
  let subbed := lowered.map (fun c => if pyWordChar c || pySpaceChar c then c else ' ')
  let stripped := ((subbed.dropWhile pySpaceChar).reverse.dropWhile pySpaceChar).reverse
  String.mk (collapseSpaces stripped)

/-! ## Rounding

Python's `round(x, 3)` rounds half to even at the third decimal. -/

/-- Round a rational to the nearest integer, ties to even. -/
def roundHalfEven (q : ℚ) : ℤ :=
  let f := ⌊q⌋
  let r := q - f
  if r < 1 / 2 then f
  else if 1 / 2 < r then f + 1
  else if Even f then f else f + 1

/-- Python `round(q, 3)`. -/
def pyRound3 (q : ℚ) : ℚ :=
  (roundHalfEven (q * 1000) : ℚ) / 1000

/-! ## Journal metric store (`journal_impact.py`)

A row of the `journals` table.  TEXT columns are nullable (`Option String`);
the numeric columns are always written by `add_journal` and modelled as
non-optional. -/

structure Journal where
  issn_l : Option String
  display_name : Option String
  issn_print : Option String
  issn_online : Option String
  impact_factor : ℚ
  works_count : ℕ
  cited_by_count : ℕ
  h_index : ℕ
  deriving DecidableEq, Repr

/-- The five-column row returned by both lookup queries
(`SELECT issn_l, display_name, impact_factor, h_index, works_count`). -/
structure JournalView where
  issn_l : Option String
  display_name : Option String
  impact_factor : ℚ
  h_index : ℕ
  works_count : ℕ
  deriving DecidableEq, Repr

def Journal.toView (j : Journal) : JournalView :=
  ⟨j.issn_l, j.display_name, j.impact_factor, j.h_index, j.works_count⟩

/-- The `journal_data` dict passed to `add_journal`.  It may carry an
`impact_factor` entry (as any dict can); `add_journal` never reads it. -/
structure JournalData where
  issn_l : Option String
  display_name : Option String
  issn_print : Option String
  issn_online : Option String
  works_count : ℕ
  cited_by_count : ℕ
  h_index : ℕ
  impact_factor : Option ℚ
  deriving DecidableEq, Repr

/-- `calculate_impact_factor`: 0.0 when either count is zero, otherwise the
average citations per paper per year, rounded to three decimals. -/
def calculate_impact_factor (cited_by_count works_count : ℕ) (years_active : ℕ := 5) : ℚ :=
  if works_count = 0 ∨ years_active = 0 then 0
  else
    let avg_citations_per_paper : ℚ := (cited_by_count : ℚ) / (works_count : ℚ)
    let impact_factor := avg_citations_per_paper / (years_active : ℚ)
    pyRound3 impact_factor

/-- `INSERT OR REPLACE` keyed on the `issn_l` TEXT primary key: a NULL key
never conflicts (SQL NULL is not equal to NULL); a non-NULL key replaces any
row carrying the same key, and the new row gets a fresh rowid (appended). -/
def upsertRow (db : List Journal) (row : Journal) : List Journal :=
  match row.issn_l with
  | none => db ++ [row]
  | some k => db.filter (fun r => r.issn_l ≠ some k) ++ [row]

/-- `add_journal`: recompute the impact factor from the supplied counts
(with the default `years_active = 5`) and upsert the full row. -/
def add_journal (db : List Journal) (jd : JournalData) : List Journal :=
  let impact_factor := calculate_impact_factor jd.cited_by_count jd.works_count
  upsertRow db
    ⟨jd.issn_l, jd.display_name, jd.issn_print, jd.issn_online,
      impact_factor, jd.works_count, jd.cited_by_count, jd.h_index⟩

/-- `get_journal_by_issn`: empty input is not found; otherwise the first row
whose `issn_l`, `issn_print` or `issn_online` equals the input (a NULL
column never matches). -/
def get_journal_by_issn (db : List Journal) (issn : String) : Option JournalView :=
  if issn = "" then none
  else
    (db.find? (fun r =>
      r.issn_l == some issn || r.issn_print == some issn || r.issn_online == some issn)).map
      Journal.toView

/-- Does a row match the exact query
`WHERE LOWER(display_name) = name.lower()`?  A NULL display name never
matches. -/
def exactNameMatch (name : String) (r : Journal) : Bool :=
  match r.display_name with
  | none => false
  | some d => strLower d == strLower name

/-- Does a row match the fallback query
`WHERE LOWER(display_name) LIKE '%' || normalized || '%'`?  A NULL display
name never matches; `_` in the normalized name is a LIKE wildcard. -/
def likeNameMatch (normalized : String) (r : Journal) : Bool :=
  match r.display_name with
  | none => false
  | some d => likeSub normalized.toList (strLower d).toList

/-- `ORDER BY impact_factor DESC LIMIT 1` then `fetchone`: the first row
attaining the maximal impact factor among `rows`. -/
def maxImpactRow (rows : List Journal) : Option Journal :=
  rows.foldl
    (fun best r =>
      match best with
      | none => some r
      | some b => if r.impact_factor > b.impact_factor then some r else some b)
    none

/-- `get_journal_by_name`: empty input is not found; otherwise try the exact
case-insensitive display-name match (first row in rowid order); if none,
fall back to the LIKE match against the normalized name, taking a row of
maximal impact factor. -/
def get_journal_by_name (db : List Journal) (name : String) : Option JournalView :=
  if name = "" then none
  else
    let normalized := normalizeName name
    match db.find? (exactNameMatch name) with
    | some r => some r.toView
    | none => (maxImpactRow (db.filter (likeNameMatch normalized))).map Journal.toView

/-! ## Papers and scoring -/

/-- A paper record as consumed by the core: only the fields the verified
components read.  `none` models an absent key. -/
structure Paper where
  title : Option String
  abstract : Option String
  venue : Option String
  citationCount : Option ℕ
  externalIds : List (String × String)
  deriving DecidableEq, Repr

/-- The ISSN extraction at the top of `get_paper_impact_score`: the first of
the keys `ISSN`, `issn` present in `externalIds`. -/
def extractIssn (paper : Paper) : Option String :=
  match paper.externalIds.lookup "ISSN" with
  | some v => some v
  | none => paper.externalIds.lookup "issn"

/-- The ISSN stage of `get_paper_impact_score`'s journal lookup:
`if issn: journal_data = self.get_journal_by_issn(issn)` — a missing or
empty (falsy) ISSN skips the lookup. -/
def issnLookup (db : List Journal) (paper : Paper) : Option JournalView :=
  match extractIssn paper with
  | some issn => if issn = "" then none else get_journal_by_issn db issn
  | none => none

/-- The venue-name fallback stage:
`if venue: journal_data = self.get_journal_by_name(venue)` — a missing or
empty (falsy) venue skips the lookup. -/
def venueLookup (db : List Journal) (paper : Paper) : Option JournalView :=
  match paper.venue with
  | some venue => if venue = "" then none else get_journal_by_name db venue
  | none => none

/-- The two-stage journal lookup of `get_paper_impact_score`: ISSN lookup
first, venue-name lookup only when it found nothing. -/
def lookupJournalForPaper (db : List Journal) (paper : Paper) : Option JournalView :=
  match issnLookup db paper with
  | some j => some j
  | none => venueLookup db paper

/-- `get_paper_impact_score`: base score `min(100, impact_factor * 10)` for a
known journal, 10 for an unknown one, plus the citation bonus
`min(20, citationCount * 2)` with an absent count read as 0. -/
def get_paper_impact_score (db : List Journal) (paper : Paper) : ℚ :=
  let base_score : ℚ :=
    match lookupJournalForPaper db paper with
    | some journal_data => min 100 (journal_data.impact_factor * 10)
    | none => 10
  let citations := paper.citationCount.getD 0
  let citation_bonus : ℚ := min 20 ((citations : ℚ) * 2)
  base_score + citation_bonus

/-! ## Exclusion filter (`paper_utils.py`) -/

/-- Is `paper` excluded by the (already lowercased) terms: some term occurs
in the lowercased title or the lowercased abstract? -/
def excludedBy (terms_lower : List String) (paper : Paper) : Bool :=
  let title := strLower (paper.title.getD "")
  let abstract := strLower (paper.abstract.getD "")
  terms_lower.any (fun term => strContains title term || strContains abstract term)

/-- `filter_excluded_terms`: with no exclusion terms, return the input list;
otherwise keep, in order, the papers not excluded by any lowercased term. -/
def filter_excluded_terms (papers : List Paper) (exclude_terms : List String) : List Paper :=
  if exclude_terms.isEmpty then papers
  else
    let exclude_terms_lower := exclude_terms.map strLower
    papers.foldl
      (fun filtered_papers paper =>
        if excludedBy exclude_terms_lower paper then filtered_papers
        else filtered_papers ++ [paper])
      []

/-! ## HTTP client (`semantic_scholar_client.py`)

`_ensure_delay` and `_make_request` are modelled over explicit wall-clock
time (a rational number of seconds).  An environment assigns to each attempt
index the outcome of `requests.get(...)` / `raise_for_status()` / `.json()`
and the duration of that blocking call. -/

/-- The parsed JSON payload; the search path only ever reads the `data`
array, and the degraded result is literally the object with an empty `data`
array. -/
structure Resp where
  data : List Paper
  deriving DecidableEq, Repr

/-- The empty result `{"data": []}` returned on 400 and on retry
exhaustion. -/
def emptyResp : Resp := ⟨[]⟩

/-- Outcome of one attempted `requests.get` inside `_make_request`:
a parsed 2xx payload, an `HTTPError` with its status code, a
`ConnectionError`/`Timeout`, or another `RequestException`. -/
inductive AttemptOutcome where
  | success (payload : Resp)
  | httpErr (status : ℕ)
  | netErr
  | reqErr
  deriving DecidableEq, Repr

/-- Would `_make_request` retry on this outcome?  Everything except a 2xx
success, the fatal 401/403, and the 400 pagination boundary. -/
def retryableOutcome : AttemptOutcome → Bool
  | .success _ => false
  | .httpErr s => !(s == 400 || s == 401 || s == 403)
  | .netErr => true
  | .reqErr => true

/-- An environment for one `_make_request` call: attempt index `i` is the
`i`-th issued request, with its outcome and the duration of the blocking
network call. -/
def MREnv : Type := ℕ → AttemptOutcome × ℚ

/-- What one `_make_request` call did: its return value (`Except.error ()`
is the `ValueError` raised on 401/403), the issuance time of every attempt,
the backoff sleeps performed, the time on return and the stamped
`last_request_time`. -/
structure MRResult where
  result : Except Unit Resp
  issues : List ℚ
  sleeps : List ℚ
  time : ℚ
  last : ℚ
  deriving Repr

/-- `_ensure_delay`: with `now` the current time and `last` the stored
`last_request_time`, sleep until `last + 1.1` when the elapsed time is below
the 1.1-second `REQUEST_DELAY`, and stamp the (new) current time as
`last_request_time`.  Returns that time, which is both the new clock value
and the new stamp. -/
def ensure_delay (now last : ℚ) : ℚ :=
  if now - last < 11 / 10 then last + 11 / 10 else now

/-- The `while current_retries < retries` loop of `_make_request`.  `fuel`
is `retries - current_retries`; `i` indexes attempts into the environment;
`cur_delay` is the current backoff delay; `now` the clock; `issues` and
`sleeps` the tracked events so far; `last` the stamped
`last_request_time` (unchanged by the loop). -/
def mrLoop (env : MREnv) (last : ℚ) :
    (fuel : ℕ) → (i : ℕ) → (cur_delay : ℚ) → (now : ℚ) →
    (issues : List ℚ) → (sleeps : List ℚ) → MRResult
  | 0, _, _, now, issues, sleeps => ⟨.ok emptyResp, issues, sleeps, now, last⟩
  | fuel + 1, i, cur_delay, now, issues, sleeps =>
    let (outcome, dur) := env i
    let issues := issues ++ [now]
    let now := now + dur
    match outcome with
    | .success payload => ⟨.ok payload, issues, sleeps, now, last⟩
    | .httpErr status =>
      if status = 401 ∨ status = 403 then
        ⟨.error (), issues, sleeps, now, last⟩
      else if status = 429 then
        mrLoop env last fuel (i + 1) (cur_delay * 2) (now + cur_delay) issues
          (sleeps ++ [cur_delay])
      else if status = 400 then
        ⟨.ok emptyResp, issues, sleeps, now, last⟩
      else
        mrLoop env last fuel (i + 1) (cur_delay * 2) (now + cur_delay) issues
          (sleeps ++ [cur_delay])
    | .netErr =>
      mrLoop env last fuel (i + 1) (cur_delay * 2) (now + cur_delay) issues
        (sleeps ++ [cur_delay])
    | .reqErr =>
      mrLoop env last fuel (i + 1) (cur_delay * 2) (now + cur_delay) issues
        (sleeps ++ [cur_delay])

/-- `_make_request`: run `_ensure_delay` once, then the retry loop with the
given budget (default 3) and initial backoff delay (default 5). -/
def make_request (env : MREnv) (now last : ℚ) (retries : ℕ := 3) (delay : ℚ := 5) :
    MRResult :=
  let gated := ensure_delay now last
  mrLoop env gated retries 0 delay gated [] []

/-! ## Paginated fetcher (`get_all_papers_by_date_range`)

The inner call chain (`get_papers_by_date_range` → `search_papers` →
`_make_request` → `.get("data", [])`) is abstracted as an oracle giving, for
the `n`-th issued search call, either a page of papers or an escaping
`requests.exceptions.RequestException` (`Except.error ()`). -/

def FetchOracle : Type := ℕ → Except Unit (List Paper)

/-- What a fetch run did: the accumulated papers, the offset of every issued
search call (failed ones included), and the 5-second circuit-breaker pauses
performed. -/
structure FetchResult where
  papers : List Paper
  offsets : List ℕ
  sleeps : List ℕ
  deriving Repr

/-- The `while len(all_papers) < max_results` loop of
`get_all_papers_by_date_range`: on a page, stop when it is empty, extend and
stop when it is short, extend and advance the offset otherwise (resetting
the failure counter); on an escaping exception, stop at the second
consecutive failure, else sleep 5 seconds and retry the same offset. -/
def fetchLoop (oracle : FetchOracle) (max_results limit : ℕ) :
    (call : ℕ) → (acc : List Paper) → (offset : ℕ) → (consecutive_failures : ℕ) →
    (offsets : List ℕ) → (sleeps : List ℕ) → FetchResult
  | call, acc, offset, consecutive_failures, offsets, sleeps =>
    if h : acc.length < max_results then
      match oracle call with
      | .ok page =>
        if page.isEmpty then ⟨acc, offsets ++ [offset], sleeps⟩
        else
          let acc' := acc ++ page
          if page.length < limit then ⟨acc', offsets ++ [offset], sleeps⟩
          else
            fetchLoop oracle max_results limit (call + 1) acc' (offset + limit) 0
              (offsets ++ [offset]) sleeps
      | .error _ =>
        if consecutive_failures + 1 ≥ 2 then ⟨acc, offsets ++ [offset], sleeps⟩
        else
          fetchLoop oracle max_results limit (call + 1) acc offset
            (consecutive_failures + 1) (offsets ++ [offset]) (sleeps ++ [5])
    else ⟨acc, offsets, sleeps⟩
termination_by call acc offset cf => (max_results - acc.length, 2 - cf)
decreasing_by
  · apply Prod.Lex.left
    have hp : 0 < page.length := by
      cases page with
      | nil => simp at *
      | cons a l => simp
    simp only [List.length_append]
    omega
  · apply Prod.Lex.right'
    · omega
    · omega

/-- `get_all_papers_by_date_range` with its fixed page size of 100, starting
from an empty accumulator at offset 0. -/
def get_all_papers_by_date_range (oracle : FetchOracle) (max_results : ℕ := 500) :
    FetchResult :=
  fetchLoop oracle max_results 100 0 [] 0 0 [] []

/-! ## General helper lemmas -/

lemma not_isEmpty_of_length_pos {α : Type} {l : List α} (h : 0 < l.length) :
    l.isEmpty = false := by
  cases l with
  | nil => simp at h
  | cons a t => simp

lemma foldl_append_filter (pred : Paper → Bool) (papers : List Paper) :
    ∀ acc : List Paper,
      papers.foldl (fun fp p => if pred p then fp else fp ++ [p]) acc
        = acc ++ papers.filter (fun p => !pred p) := by
  induction papers with
  | nil => intro acc; simp
  | cons a l ih =>
    intro acc
    simp only [List.foldl_cons, List.filter_cons]
    by_cases h : pred a
    · simp [h, ih]
    · simp [h, ih]

/-- C10 helper: `filter_excluded_terms` on a non-empty term list is a plain
`List.filter`. -/
lemma filter_excluded_terms_eq_filter (papers : List Paper) (exclude_terms : List String)
    (h : exclude_terms.isEmpty = false) :
    filter_excluded_terms papers exclude_terms
      = papers.filter (fun p => !excludedBy (exclude_terms.map strLower) p) := by
  unfold filter_excluded_terms
  rw [h]
  simpa using foldl_append_filter (excludedBy (exclude_terms.map strLower)) papers []

/-- C10.  `filter_excluded_terms` with an empty term list returns its input
unchanged; in every case the output is a subsequence of the input (order
kept, nothing duplicated), and a paper of the input survives exactly when no
exclusion term's lowercase form occurs in its lowercased title or lowercased
abstract. -/
theorem c10_filter_excluded_terms_subsequence (papers : List Paper)
    (exclude_terms : List String) :
    (exclude_terms = [] → filter_excluded_terms papers exclude_terms = papers)
    ∧ List.Sublist (filter_excluded_terms papers exclude_terms) papers
    ∧ (∀ p ∈ papers,
        p ∈ filter_excluded_terms papers exclude_terms ↔
          ¬ ∃ t ∈ exclude_terms,
              strContains (strLower (p.title.getD "")) (strLower t) = true
              ∨ strContains (strLower (p.abstract.getD "")) (strLower t) = true) := by
  by_cases hempty : exclude_terms.isEmpty
  · have he : exclude_terms = [] := by simpa [List.isEmpty_iff] using hempty
    subst he
    refine ⟨fun _ => ?_, ?_, ?_⟩
    · simp [filter_excluded_terms]
    · simp [filter_excluded_terms]
    · intro p hp
      simp [filter_excluded_terms, hp]
  · have h : exclude_terms.isEmpty = false := by simpa using hempty
    rw [filter_excluded_terms_eq_filter papers exclude_terms h]
    refine ⟨fun he => ?_, List.filter_sublist _, ?_⟩
    · exact absurd he (by simpa [List.isEmpty_iff] using h)
    · intro p hp
      rw [List.mem_filter]
      simp only [hp, true_and, Bool.not_eq_true']
      unfold excludedBy
      simp [List.any_map, List.any_eq_true, Function.comp]

/-- C6.  `add_journal` ignores any impact factor supplied in the input dict,
and the row it writes carries the supplied counts together with an impact
factor recomputed as 0 for zero works and `round(cited / works / 5, 3)`
otherwise (the years-active constant fixed at 5). -/
theorem c6_add_journal_recomputes_impact_factor (db : List Journal) (jd : JournalData)
    (x : Option ℚ) :
    add_journal db { jd with impact_factor := x } = add_journal db jd
    ∧ ∃ row : Journal,
        (add_journal db jd).getLast? = some row
        ∧ row.issn_l = jd.issn_l
        ∧ row.works_count = jd.works_count
        ∧ row.cited_by_count = jd.cited_by_count
        ∧ row.h_index = jd.h_index
        ∧ row.impact_factor =
            (if jd.works_count = 0 then 0
             else pyRound3 ((jd.cited_by_count : ℚ) / (jd.works_count : ℚ) / 5)) := by
  constructor
  · rfl
  · refine ⟨⟨jd.issn_l, jd.display_name, jd.issn_print, jd.issn_online,
      calculate_impact_factor jd.cited_by_count jd.works_count,
      jd.works_count, jd.cited_by_count, jd.h_index⟩, ?_, rfl, rfl, rfl, rfl, ?_⟩
    · unfold add_journal upsertRow
      cases jd.issn_l with
      | none => simp
      | some k => simp
    · unfold calculate_impact_factor
      by_cases hw : jd.works_count = 0
      · simp [hw]
      · simp [hw]

/-- Witness for C10 at concrete inputs. -/
theorem c10_witness :
    filter_excluded_terms [⟨some "Microbiome study", none, none, none, []⟩] [] =
      [⟨some "Microbiome study", none, none, none, []⟩]
    ∧ ((⟨some "Microbiome study", none, none, none, []⟩ : Paper) ∈
        filter_excluded_terms [⟨some "Microbiome study", none, none, none, []⟩] ["MICRO"] ↔
        ¬ ∃ t ∈ ["MICRO"],
            strContains (strLower ((⟨some "Microbiome study", none, none, none, []⟩ :
              Paper).title.getD "")) (strLower t) = true
            ∨ strContains (strLower ((⟨some "Microbiome study", none, none, none, []⟩ :
              Paper).abstract.getD "")) (strLower t) = true) :=
  ⟨(c10_filter_excluded_terms_subsequence _ []).1 rfl,
   (c10_filter_excluded_terms_subsequence _ ["MICRO"]).2.2 _ (by simp)⟩

/-! ## Lemmas about the `_make_request` retry loop -/

/-- The stamped `last_request_time` is untouched by the retry loop. -/
lemma mrLoop_last_eq (env : MREnv) (last : ℚ) :
    ∀ fuel i d now issues sleeps,
      (mrLoop env last fuel i d now issues sleeps).last = last := by
  intro fuel
  induction fuel with
  | zero => intro i d now issues sleeps; rfl
  | succ n ih =>
    intro i d now issues sleeps
    rcases henv : env i with ⟨outcome, dur⟩
    cases outcome with
    | success payload => simp [mrLoop, henv]
    | httpErr status =>
      by_cases h1 : status = 401 ∨ status = 403
      · simp [mrLoop, henv, h1]
      · by_cases h2 : status = 429
        · simp [mrLoop, henv, h1, h2, ih]
        · by_cases h3 : status = 400
          · simp [mrLoop, henv, h1, h2, h3]
          · simp [mrLoop, henv, h1, h2, h3, ih]
    | netErr => simp [mrLoop, henv, ih]
    | reqErr => simp [mrLoop, henv, ih]

/-- The retry loop issues at most `fuel` further requests. -/
lemma mrLoop_issues_length_le (env : MREnv) (last : ℚ) :
    ∀ fuel i d now issues sleeps,
      (mrLoop env last fuel i d now issues sleeps).issues.length
        ≤ issues.length + fuel := by
  intro fuel
  induction fuel with
  | zero => intro i d now issues sleeps; simp [mrLoop]
  | succ n ih =>
    intro i d now issues sleeps
    rcases henv : env i with ⟨outcome, dur⟩
    have hlen : (issues ++ [now]).length = issues.length + 1 := by simp
    cases outcome with
    | success payload => simp [mrLoop, henv]
    | httpErr status =>
      by_cases h1 : status = 401 ∨ status = 403
      · simp [mrLoop, henv, h1]
      · by_cases h2 : status = 429
        · have := ih (i + 1) (d * 2) (now + dur + d) (issues ++ [now]) (sleeps ++ [d])
          simp only [mrLoop, henv, if_neg h1, if_pos h2]
          simp only [hlen] at this
          omega
        · by_cases h3 : status = 400
          · simp [mrLoop, henv, h1, h2, h3]
          · have := ih (i + 1) (d * 2) (now + dur + d) (issues ++ [now]) (sleeps ++ [d])
            simp only [mrLoop, henv, if_neg h1, if_neg h2, if_neg h3]
            simp only [hlen] at this
            omega
    | netErr =>
      have := ih (i + 1) (d * 2) (now + dur + d) (issues ++ [now]) (sleeps ++ [d])
      simp only [mrLoop, henv]
      simp only [hlen] at this
      omega
    | reqErr =>
      have := ih (i + 1) (d * 2) (now + dur + d) (issues ++ [now]) (sleeps ++ [d])
      simp only [mrLoop, henv]
      simp only [hlen] at this
      omega

/-- The backoff schedule: `fuel` sleeps starting at `d`, doubling each
time. -/
def backoffs : ℕ → ℚ → List ℚ
  | 0, _ => []
  | n + 1, d => d :: backoffs n (d * 2)

/-- When every attempt's outcome is retryable, the loop consumes its whole
budget, returns the empty result, issues exactly `fuel` requests and sleeps
the doubling backoff schedule. -/
lemma mrLoop_all_retryable (env : MREnv) (last : ℚ)
    (hatt : ∀ i, retryableOutcome (env i).1 = true) :
    ∀ fuel i d now issues sleeps,
      (mrLoop env last fuel i d now issues sleeps).result = Except.ok emptyResp
      ∧ (mrLoop env last fuel i d now issues sleeps).issues.length
          = issues.length + fuel
      ∧ (mrLoop env last fuel i d now issues sleeps).sleeps
          = sleeps ++ backoffs fuel d := by
  intro fuel
  induction fuel with
  | zero => intro i d now issues sleeps; simp [mrLoop, backoffs]
  | succ n ih =>
    intro i d now issues sleeps
    rcases henv : env i with ⟨outcome, dur⟩
    have hret := hatt i
    rw [henv] at hret
    cases outcome with
    | success payload => simp [retryableOutcome] at hret
    | httpErr status =>
      simp only [retryableOutcome, Bool.not_eq_true', Bool.or_eq_false_iff,
        beq_eq_false_iff_ne, ne_eq] at hret
      obtain ⟨⟨h400, h401⟩, h403⟩ := hret
      have h1 : ¬(status = 401 ∨ status = 403) := by tauto
      have hrec := ih (i + 1) (d * 2) (now + dur + d) (issues ++ [now]) (sleeps ++ [d])
      by_cases h2 : status = 429
      · simp only [mrLoop, henv, if_neg h1, if_pos h2]
        refine ⟨hrec.1, ?_, ?_⟩
        · rw [hrec.2.1]; simp; omega
        · rw [hrec.2.2]; simp [backoffs]
      · simp only [mrLoop, henv, if_neg h1, if_neg h2, if_neg h400]
        refine ⟨hrec.1, ?_, ?_⟩
        · rw [hrec.2.1]; simp; omega
        · rw [hrec.2.2]; simp [backoffs]
    | netErr =>
      have hrec := ih (i + 1) (d * 2) (now + dur + d) (issues ++ [now]) (sleeps ++ [d])
      simp only [mrLoop, henv]
      refine ⟨hrec.1, ?_, ?_⟩
      · rw [hrec.2.1]; simp; omega
      · rw [hrec.2.2]; simp [backoffs]
    | reqErr =>
      have hrec := ih (i + 1) (d * 2) (now + dur + d) (issues ++ [now]) (sleeps ++ [d])
      simp only [mrLoop, henv]
      refine ⟨hrec.1, ?_, ?_⟩
      · rw [hrec.2.1]; simp; omega
      · rw [hrec.2.2]; simp [backoffs]

/-- C3.  `_make_request` issues at most 3 attempts; and when every outcome
is retryable (429, other retryable 4xx/5xx, transport errors) it exhausts
the budget sleeping the doubling backoff 5, 10, 20, returns the empty result
`{"data": []}` and does not raise. -/
theorem c3_retry_budget_and_degrade_to_empty (env : MREnv) (now last : ℚ) :
    (make_request env now last).issues.length ≤ 3
    ∧ ((∀ i, retryableOutcome (env i).1 = true) →
        (make_request env now last).result = Except.ok emptyResp
        ∧ (make_request env now last).issues.length = 3
        ∧ (make_request env now last).sleeps = [5, 10, 20]) := by
  constructor
  · simpa using mrLoop_issues_length_le env (ensure_delay now last) 3 0 5
      (ensure_delay now last) [] []
  · intro hatt
    have h := mrLoop_all_retryable env (ensure_delay now last) hatt 3 0 5
      (ensure_delay now last) [] []
    refine ⟨h.1, by simpa using h.2.1, ?_⟩
    rw [make_request]
    rw [h.2.2]
    norm_num [backoffs]

/-- Witness for C3: three straight 429s. -/
theorem c3_witness :
    (make_request (fun _ => (AttemptOutcome.httpErr 429, 0)) 0 0).result
      = Except.ok emptyResp
    ∧ (make_request (fun _ => (AttemptOutcome.httpErr 429, 0)) 0 0).issues.length = 3
    ∧ (make_request (fun _ => (AttemptOutcome.httpErr 429, 0)) 0 0).sleeps
      = [5, 10, 20] :=
  (c3_retry_budget_and_degrade_to_empty (fun _ => (AttemptOutcome.httpErr 429, 0)) 0 0).2
    (fun _ => by decide)

/-- C4.  A 401 or 403 response makes `_make_request` fail fatally and
immediately on that attempt: at any point of the loop it raises the
`ValueError` (modelled `Except.error ()`) with no further attempt and no
backoff sleep; in particular a first-attempt 401/403 yields a propagated
error, a single issued request and an empty sleep list — never the empty
result set. -/
theorem c4_auth_error_fatal_immediate (env : MREnv) (status : ℕ)
    (hs : status = 401 ∨ status = 403) :
    (∀ (last : ℚ) (fuel i : ℕ) (d now : ℚ) (issues sleeps : List ℚ) (dur : ℚ),
      env i = (AttemptOutcome.httpErr status, dur) →
      mrLoop env last (fuel + 1) i d now issues sleeps
        = ⟨Except.error (), issues ++ [now], sleeps, now + dur, last⟩)
    ∧ (∀ (now last : ℚ) (retries : ℕ) (delay dur : ℚ),
      env 0 = (AttemptOutcome.httpErr status, dur) → 0 < retries →
      (make_request env now last retries delay).result = Except.error ()
      ∧ (make_request env now last retries delay).issues.length = 1
      ∧ (make_request env now last retries delay).sleeps = []) := by
  have hloop : ∀ (last : ℚ) (fuel i : ℕ) (d now : ℚ) (issues sleeps : List ℚ) (dur : ℚ),
      env i = (AttemptOutcome.httpErr status, dur) →
      mrLoop env last (fuel + 1) i d now issues sleeps
        = ⟨Except.error (), issues ++ [now], sleeps, now + dur, last⟩ := by
    intro last fuel i d now issues sleeps dur henv
    simp [mrLoop, henv, hs]
  refine ⟨hloop, ?_⟩
  intro now last retries delay dur henv hr
  obtain ⟨n, rfl⟩ : ∃ n, retries = n + 1 := ⟨retries - 1, by omega⟩
  rw [make_request, hloop (ensure_delay now last) n 0 delay (ensure_delay now last) [] [] dur henv]
  simp

/-- Witness for C4: a 403 on the first attempt. -/
theorem c4_witness :
    (make_request (fun _ => (AttemptOutcome.httpErr 403, 0)) 0 0).result
      = Except.error ()
    ∧ (make_request (fun _ => (AttemptOutcome.httpErr 403, 0)) 0 0).issues.length = 1
    ∧ (make_request (fun _ => (AttemptOutcome.httpErr 403, 0)) 0 0).sleeps = [] :=
  (c4_auth_error_fatal_immediate (fun _ => (AttemptOutcome.httpErr 403, 0)) 403
    (Or.inr rfl)).2 0 0 3 5 0 rfl (by norm_num)

/-- C5.  A 400 response makes `_make_request` return the empty result
`{"data": []}` immediately, at any point of the loop and however many
retries remain: no retry, no sleep, no error. -/
theorem c5_status_400_returns_empty_immediately (env : MREnv) :
    (∀ (last : ℚ) (fuel i : ℕ) (d now : ℚ) (issues sleeps : List ℚ) (dur : ℚ),
      env i = (AttemptOutcome.httpErr 400, dur) →
      mrLoop env last (fuel + 1) i d now issues sleeps
        = ⟨Except.ok emptyResp, issues ++ [now], sleeps, now + dur, last⟩)
    ∧ (∀ (now last : ℚ) (retries : ℕ) (delay dur : ℚ),
      env 0 = (AttemptOutcome.httpErr 400, dur) → 0 < retries →
      (make_request env now last retries delay).result = Except.ok emptyResp
      ∧ (make_request env now last retries delay).issues.length = 1
      ∧ (make_request env now last retries delay).sleeps = []) := by
  have hloop : ∀ (last : ℚ) (fuel i : ℕ) (d now : ℚ) (issues sleeps : List ℚ) (dur : ℚ),
      env i = (AttemptOutcome.httpErr 400, dur) →
      mrLoop env last (fuel + 1) i d now issues sleeps
        = ⟨Except.ok emptyResp, issues ++ [now], sleeps, now + dur, last⟩ := by
    intro last fuel i d now issues sleeps dur henv
    simp [mrLoop, henv]
  refine ⟨hloop, ?_⟩
  intro now last retries delay dur henv hr
  obtain ⟨n, rfl⟩ : ∃ n, retries = n + 1 := ⟨retries - 1, by omega⟩
  rw [make_request, hloop (ensure_delay now last) n 0 delay (ensure_delay now last) [] [] dur henv]
  simp

/-- Witness for C5: a 400 on the first attempt with a full budget. -/
theorem c5_witness :
    (make_request (fun _ => (AttemptOutcome.httpErr 400, 0)) 0 0).result
      = Except.ok emptyResp
    ∧ (make_request (fun _ => (AttemptOutcome.httpErr 400, 0)) 0 0).issues.length = 1
    ∧ (make_request (fun _ => (AttemptOutcome.httpErr 400, 0)) 0 0).sleeps = [] :=
  (c5_status_400_returns_empty_immediately (fun _ => (AttemptOutcome.httpErr 400, 0))).2
    0 0 3 5 0 rfl (by norm_num)

/-- Issuance-time invariant of the retry loop: when every network call has a
non-negative duration and the backoff delay is at least 5, the attempts the
loop adds all lie at or after `now`, the first added one is exactly `now`,
and consecutive issuance times (old and new together) are at least 5
apart. -/
lemma mrLoop_issue_times (env : MREnv) (last : ℚ) (hdur : ∀ i, 0 ≤ (env i).2) :
    ∀ fuel i d now issues sleeps,
      5 ≤ d →
      List.Chain' (fun a b => a + 5 ≤ b) issues →
      (∀ t ∈ issues, t + 5 ≤ now) →
      ∃ extra : List ℚ,
        (mrLoop env last fuel i d now issues sleeps).issues = issues ++ extra
        ∧ List.Chain' (fun a b => a + 5 ≤ b) (issues ++ extra)
        ∧ (∀ t ∈ extra, now ≤ t)
        ∧ (fuel = 0 → extra = [])
        ∧ (fuel ≠ 0 → extra.head? = some now) := by
  intro fuel
  induction fuel with
  | zero =>
    intro i d now issues sleeps _ hchain _
    exact ⟨[], by simp [mrLoop], by simpa using hchain, by simp, fun _ => rfl,
      fun h => absurd rfl h⟩
  | succ n ih =>
    intro i d now issues sleeps hd hchain hbound
    rcases henv : env i with ⟨outcome, dur⟩
    have hdur0 : 0 ≤ dur := by have := hdur i; rw [henv] at this; exact this
    have hchain1 : List.Chain' (fun a b => a + 5 ≤ b) (issues ++ [now]) := by
      rw [List.chain'_append]
      refine ⟨hchain, List.chain'_singleton _, ?_⟩
      intro x hx y hy
      have hxm : x ∈ issues := List.mem_of_mem_getLast? hx
      have hyn : now = y := by simpa using hy
      rw [← hyn]
      exact hbound x hxm
    have hbound1 : ∀ t ∈ issues ++ [now], t + 5 ≤ now + dur + d := by
      intro t ht
      rcases List.mem_append.mp ht with h | h
      · have := hbound t h; linarith
      · have : t = now := by simpa using h
        subst this; linarith
    have hd2 : 5 ≤ d * 2 := by linarith
    have hterm : ∀ res : Except Unit Resp, ∀ tfin sl,
        (⟨res, issues ++ [now], sl, tfin, last⟩ : MRResult).issues = issues ++ [now]
          ∧ List.Chain' (fun a b => a + 5 ≤ b) (issues ++ [now])
          ∧ (∀ t ∈ [now], now ≤ t)
          ∧ (n + 1 = 0 → [now] = [])
          ∧ (n + 1 ≠ 0 → [now].head? = some now) := by
      intro res tfin sl
      exact ⟨rfl, hchain1, by simp, by omega, fun _ => rfl⟩
    have hrec : ∀ sl, ∃ extra : List ℚ,
        (mrLoop env last n (i + 1) (d * 2) (now + dur + d) (issues ++ [now]) sl).issues
          = issues ++ (now :: extra)
        ∧ List.Chain' (fun a b => a + 5 ≤ b) (issues ++ (now :: extra))
        ∧ (∀ t ∈ now :: extra, now ≤ t)
        ∧ (now :: extra).head? = some now := by
      intro sl
      obtain ⟨extra, h1, h2, h3, _, _⟩ :=
        ih (i + 1) (d * 2) (now + dur + d) (issues ++ [now]) sl hd2 hchain1 hbound1
      refine ⟨extra, by simpa using h1, by simpa using h2, ?_, rfl⟩
      intro t ht
      rcases List.mem_cons.mp ht with h | h
      · exact le_of_eq h.symm
      · have := h3 t h; linarith
    cases outcome with
    | success payload =>
      obtain ⟨h1, h2, h3, h4, h5⟩ := hterm (Except.ok payload) (now + dur) sleeps
      exact ⟨[now], by simp [mrLoop, henv], h2, h3, h4, h5⟩
    | httpErr status =>
      by_cases h1 : status = 401 ∨ status = 403
      · obtain ⟨_, hc2, hc3, hc4, hc5⟩ := hterm (Except.error ()) (now + dur) sleeps
        exact ⟨[now], by simp [mrLoop, henv, h1], hc2, hc3, hc4, hc5⟩
      · by_cases h2 : status = 429
        · obtain ⟨extra, he1, he2, he3, he4⟩ := hrec (sleeps ++ [d])
          refine ⟨now :: extra, ?_, he2, he3, by omega, fun _ => he4⟩
          simpa [mrLoop, henv, if_neg h1, if_pos h2] using he1
        · by_cases h3 : status = 400
          · obtain ⟨_, hc2, hc3, hc4, hc5⟩ := hterm (Except.ok emptyResp) (now + dur) sleeps
            exact ⟨[now], by simp [mrLoop, henv, h1, h2, h3], hc2, hc3, hc4, hc5⟩
          · obtain ⟨extra, he1, he2, he3, he4⟩ := hrec (sleeps ++ [d])
            refine ⟨now :: extra, ?_, he2, he3, by omega, fun _ => he4⟩
            simpa [mrLoop, henv, if_neg h1, if_neg h2, if_neg h3] using he1
    | netErr =>
      obtain ⟨extra, he1, he2, he3, he4⟩ := hrec (sleeps ++ [d])
      refine ⟨now :: extra, ?_, he2, he3, by omega, fun _ => he4⟩
      simpa [mrLoop, henv] using he1
    | reqErr =>
      obtain ⟨extra, he1, he2, he3, he4⟩ := hrec (sleeps ++ [d])
      refine ⟨now :: extra, ?_, he2, he3, by omega, fun _ => he4⟩
      simpa [mrLoop, henv] using he1

/-- C2, counterexample to the claim as stated.  Request one (starting at
time 100 with last stamp 0) hits a 429 and retries; its two attempts go out
at 100 and 105.1, but `last_request_time` stays at 100: the retry attempt
was not wrapped by the gate.  Request two, issued from the state request one
left behind, goes out at 105.2 — only 0.1 time units after the previous
outbound request, closer than the 1.1 cadence. -/
theorem c2_counterexample :
    (make_request
        (fun i => if i = 0 then (AttemptOutcome.httpErr 429, 1 / 10)
          else (AttemptOutcome.success emptyResp, 1 / 10)) 100 0).issues
      = [100, 1051 / 10]
    ∧ (make_request
        (fun i => if i = 0 then (AttemptOutcome.httpErr 429, 1 / 10)
          else (AttemptOutcome.success emptyResp, 1 / 10)) 100 0).last = 100
    ∧ (make_request
        (fun i => if i = 0 then (AttemptOutcome.httpErr 429, 1 / 10)
          else (AttemptOutcome.success emptyResp, 1 / 10)) 100 0).time = 526 / 5
    ∧ (make_request (fun _ => (AttemptOutcome.success emptyResp, 1 / 10))
        (526 / 5) 100).issues = [526 / 5]
    ∧ (526 / 5 : ℚ) - 1051 / 10 < 11 / 10 := by
  refine ⟨?_, ?_, ?_, ?_, by norm_num⟩ <;>
    simp [make_request, mrLoop, ensure_delay] <;> norm_num

/-- C2, amended.  The gate runs once per logical request, before its first
attempt: every attempt of a `_make_request` call is issued at least 1.1
after the incoming `last_request_time`, the stamped time equals the first
attempt's issuance time (it is not re-stamped at retries), and retry
attempts within the call are spaced at least 5 apart by the backoff sleeps
(durations non-negative, initial delay at least 5). -/
theorem c2_gate_once_per_logical_request (env : MREnv) (now last : ℚ)
    (retries : ℕ) (delay : ℚ) (hdur : ∀ i, 0 ≤ (env i).2) (hdelay : 5 ≤ delay) :
    (∀ t ∈ (make_request env now last retries delay).issues, last + 11 / 10 ≤ t)
    ∧ List.Chain' (fun a b => a + 5 ≤ b) (make_request env now last retries delay).issues
    ∧ ((make_request env now last retries delay).issues.head?
          = some ((make_request env now last retries delay).last)
        ∨ (make_request env now last retries delay).issues = []) := by
  have hgate : last + 11 / 10 ≤ ensure_delay now last := by
    unfold ensure_delay
    by_cases h : now - last < 11 / 10
    · rw [if_pos h]
    · rw [if_neg h]; linarith
  obtain ⟨extra, h1, h2, h3, h4, h5⟩ :=
    mrLoop_issue_times env (ensure_delay now last) hdur retries 0 delay
      (ensure_delay now last) [] [] hdelay (List.chain'_nil) (by simp)
  have hiss : (make_request env now last retries delay).issues = extra := by
    rw [make_request]; simpa using h1
  have hlast : (make_request env now last retries delay).last = ensure_delay now last := by
    rw [make_request]; exact mrLoop_last_eq env (ensure_delay now last) retries 0 delay
      (ensure_delay now last) [] []
  refine ⟨?_, ?_, ?_⟩
  · intro t ht
    rw [hiss] at ht
    have := h3 t ht
    linarith
  · rw [hiss]; simpa using h2
  · rw [hiss, hlast]
    cases retries with
    | zero => right; exact h4 rfl
    | succ n => left; exact h5 (by omega)

/-- Witness for the amended C2. -/
theorem c2_witness :
    (∀ t ∈ (make_request (fun _ => (AttemptOutcome.success emptyResp, 0)) 0 0).issues,
      (0 : ℚ) + 11 / 10 ≤ t)
    ∧ List.Chain' (fun a b => a + 5 ≤ b)
        (make_request (fun _ => (AttemptOutcome.success emptyResp, 0)) 0 0).issues
    ∧ ((make_request (fun _ => (AttemptOutcome.success emptyResp, 0)) 0 0).issues.head?
          = some ((make_request (fun _ => (AttemptOutcome.success emptyResp, 0)) 0 0).last)
        ∨ (make_request (fun _ => (AttemptOutcome.success emptyResp, 0)) 0 0).issues = []) :=
  c2_gate_once_per_logical_request (fun _ => (AttemptOutcome.success emptyResp, 0)) 0 0 3 5
    (fun _ => le_refl 0) (by norm_num)

/-! ## Lemmas about the pagination loop -/

/-- Once the accumulator has reached the requested maximum, the loop
stops. -/
lemma fetchLoop_done (oracle : FetchOracle) (max_results limit call : ℕ)
    (acc : List Paper) (offset cf : ℕ) (offsets sleeps : List ℕ)
    (h : ¬ acc.length < max_results) :
    fetchLoop oracle max_results limit call acc offset cf offsets sleeps
      = ⟨acc, offsets, sleeps⟩ := by
  rw [fetchLoop, dif_neg h]

/-- One step of the loop on a full page: extend the accumulator, advance the
offset by the page size, reset the failure counter. -/
lemma fetchLoop_full_page_step (oracle : FetchOracle) (max_results call : ℕ)
    (acc : List Paper) (offset cf : ℕ) (offsets sleeps : List ℕ) (page : List Paper)
    (hacc : acc.length < max_results) (ho : oracle call = Except.ok page)
    (hp : page.length = 100) :
    fetchLoop oracle max_results 100 call acc offset cf offsets sleeps
      = fetchLoop oracle max_results 100 (call + 1) (acc ++ page) (offset + 100) 0
          (offsets ++ [offset]) sleeps := by
  rw [fetchLoop, dif_pos hacc]
  have hne : page.isEmpty = false := not_isEmpty_of_length_pos (by omega)
  simp only [ho, hne, hp]
  simp

/-- C8.  With `max_results = 250` and the fixed page size 100, a run over
all-full pages issues exactly the three requests at offsets 0, 100, 200 and
accumulates 300 papers; and from any loop state still under the maximum, a
page shorter than the page size ends the run with that page included and
everything accumulated so far returned (the result type is total: nothing is
raised). -/
theorem c8_pagination_offsets_and_short_page_stop (oracle : FetchOracle) :
    ((∀ n, ∃ page, oracle n = Except.ok page ∧ page.length = 100) →
      (get_all_papers_by_date_range oracle 250).offsets = [0, 100, 200]
      ∧ (get_all_papers_by_date_range oracle 250).papers.length = 300)
    ∧ (∀ (call : ℕ) (acc : List Paper) (offset cf : ℕ) (offsets sleeps : List ℕ)
        (page : List Paper),
        acc.length < 250 → oracle call = Except.ok page → page.length < 100 →
        fetchLoop oracle 250 100 call acc offset cf offsets sleeps
          = ⟨acc ++ page, offsets ++ [offset], sleeps⟩) := by
  constructor
  · intro hfull
    obtain ⟨p0, ho0, hl0⟩ := hfull 0
    obtain ⟨p1, ho1, hl1⟩ := hfull 1
    obtain ⟨p2, ho2, hl2⟩ := hfull 2
    rw [get_all_papers_by_date_range,
      fetchLoop_full_page_step oracle 250 0 [] 0 0 [] [] p0 (by simp) ho0 hl0,
      fetchLoop_full_page_step oracle 250 1 ([] ++ p0) 100 0 ([] ++ [0]) [] p1
        (by simp [hl0]) ho1 hl1,
      fetchLoop_full_page_step oracle 250 2 (([] ++ p0) ++ p1) 200 0
        (([] ++ [0]) ++ [100]) [] p2 (by simp [hl0, hl1]) ho2 hl2,
      fetchLoop_done oracle 250 100 3 ((([] ++ p0) ++ p1) ++ p2) 300 0
        ((([] ++ [0]) ++ [100]) ++ [200]) [] (by simp [hl0, hl1, hl2])]
    constructor
    · simp
    · simp [hl0, hl1, hl2]
  · intro call acc offset cf offsets sleeps page hacc ho hp
    rw [fetchLoop, dif_pos hacc]
    simp only [ho]
    cases page with
    | nil => simp
    | cons q qs =>
      have hne : (q :: qs).isEmpty = false := not_isEmpty_of_length_pos (by simp)
      simp only [hne, hp]
      simp [hp]

/-- Witness for C8: a constant full-page oracle and a one-short-page
oracle. -/
theorem c8_witness :
    ((get_all_papers_by_date_range
        (fun _ => Except.ok (List.replicate 100 (⟨none, none, none, none, []⟩ : Paper)))
        250).offsets = [0, 100, 200]
      ∧ (get_all_papers_by_date_range
        (fun _ => Except.ok (List.replicate 100 (⟨none, none, none, none, []⟩ : Paper)))
        250).papers.length = 300)
    ∧ fetchLoop
        (fun _ => Except.ok (List.replicate 7 (⟨none, none, none, none, []⟩ : Paper)))
        250 100 0 [] 0 0 [] []
        = ⟨[] ++ List.replicate 7 (⟨none, none, none, none, []⟩ : Paper), [] ++ [0], []⟩ :=
  ⟨(c8_pagination_offsets_and_short_page_stop
      (fun _ => Except.ok (List.replicate 100 (⟨none, none, none, none, []⟩ : Paper)))).1
      (fun _ => ⟨_, rfl, by simp⟩),
   (c8_pagination_offsets_and_short_page_stop
      (fun _ => Except.ok (List.replicate 7 (⟨none, none, none, none, []⟩ : Paper)))).2
      0 [] 0 0 [] [] _ (by simp) rfl (by simp)⟩

/-- C9.  From a clean state (no prior consecutive failure), two consecutive
escaping transport exceptions stop the loop and return exactly what was
accumulated, with one 5-second pause between the two attempts; a single
failure under the budget retries the same offset after a recorded 5-second
pause. -/
theorem c9_consecutive_failure_circuit_breaker (oracle : FetchOracle)
    (max_results : ℕ) :
    (∀ (call : ℕ) (acc : List Paper) (offset : ℕ) (offsets sleeps : List ℕ),
      acc.length < max_results →
      oracle call = Except.error () →
      oracle (call + 1) = Except.error () →
      fetchLoop oracle max_results 100 call acc offset 0 offsets sleeps
        = ⟨acc, offsets ++ [offset, offset], sleeps ++ [5]⟩)
    ∧ (∀ (call : ℕ) (acc : List Paper) (offset : ℕ) (offsets sleeps : List ℕ),
      acc.length < max_results →
      oracle call = Except.error () →
      fetchLoop oracle max_results 100 call acc offset 0 offsets sleeps
        = fetchLoop oracle max_results 100 (call + 1) acc offset 1
            (offsets ++ [offset]) (sleeps ++ [5])) := by
  have hstep : ∀ (call : ℕ) (acc : List Paper) (offset : ℕ) (offsets sleeps : List ℕ),
      acc.length < max_results →
      oracle call = Except.error () →
      fetchLoop oracle max_results 100 call acc offset 0 offsets sleeps
        = fetchLoop oracle max_results 100 (call + 1) acc offset 1
            (offsets ++ [offset]) (sleeps ++ [5]) := by
    intro call acc offset offsets sleeps hacc ho
    rw [fetchLoop, dif_pos hacc]
    simp [ho]
  have hstop : ∀ (call : ℕ) (acc : List Paper) (offset : ℕ) (offsets sleeps : List ℕ),
      acc.length < max_results →
      oracle call = Except.error () →
      fetchLoop oracle max_results 100 call acc offset 1 offsets sleeps
        = ⟨acc, offsets ++ [offset], sleeps⟩ := by
    intro call acc offset offsets sleeps hacc ho
    rw [fetchLoop, dif_pos hacc]
    simp [ho]
  refine ⟨?_, hstep⟩
  intro call acc offset offsets sleeps hacc ho ho2
  rw [hstep call acc offset offsets sleeps hacc ho,
    hstop (call + 1) acc offset (offsets ++ [offset]) (sleeps ++ [5]) hacc ho2]
  simp

/-- Witness for C9: an always-failing oracle. -/
theorem c9_witness :
    fetchLoop (fun _ => Except.error ()) 10 100 0 [] 7 0 [] []
      = ⟨[], [] ++ [7, 7], [] ++ [5]⟩ :=
  (c9_consecutive_failure_circuit_breaker (fun _ => Except.error ()) 10).1
    0 [] 7 [] [] (by simp) rfl rfl

/-! ## Lemmas about the store lookups -/

/-- The fold behind `maxImpactRow`: its result comes from the accumulator or
the list, and dominates both in impact factor. -/
lemma maxImpactRow_go (rows : List Journal) :
    ∀ (acc : Option Journal) (res : Journal),
      rows.foldl
        (fun best r =>
          match best with
          | none => some r
          | some b => if r.impact_factor > b.impact_factor then some r else some b)
        acc = some res →
      (acc = some res ∨ res ∈ rows)
      ∧ (∀ b, acc = some b → b.impact_factor ≤ res.impact_factor)
      ∧ (∀ r ∈ rows, r.impact_factor ≤ res.impact_factor) := by
  induction rows with
  | nil =>
    intro acc res h
    simp only [List.foldl_nil] at h
    refine ⟨Or.inl h, ?_, by simp⟩
    intro b hb
    rw [hb] at h
    cases h
    exact le_refl _
  | cons a l ih =>
    intro acc res h
    simp only [List.foldl_cons] at h
    cases acc with
    | none =>
      obtain ⟨h1, h2, h3⟩ := ih (some a) res h
      have ha : a.impact_factor ≤ res.impact_factor := h2 a rfl
      refine ⟨Or.inr ?_, by simp, ?_⟩
      · rcases h1 with h1 | h1
        · cases h1; exact List.mem_cons_self a l
        · exact List.mem_cons_of_mem a h1
      · intro r hr
        rcases List.mem_cons.mp hr with h | h
        · rw [h]; exact ha
        · exact h3 r h
    | some b =>
      have hred : (match some b with
          | none => some a
          | some b => if a.impact_factor > b.impact_factor then some a else some b)
          = if a.impact_factor > b.impact_factor then some a else some b := rfl
      rw [hred] at h
      by_cases hab : a.impact_factor > b.impact_factor
      · rw [if_pos hab] at h
        obtain ⟨h1, h2, h3⟩ := ih (some a) res h
        have ha : a.impact_factor ≤ res.impact_factor := h2 a rfl
        refine ⟨Or.inr ?_, ?_, ?_⟩
        · rcases h1 with h1 | h1
          · cases h1; exact List.mem_cons_self a l
          · exact List.mem_cons_of_mem a h1
        · intro c hc
          cases hc
          exact le_trans (le_of_lt hab) ha
        · intro r hr
          rcases List.mem_cons.mp hr with h | h
          · rw [h]; exact ha
          · exact h3 r h
      · rw [if_neg hab] at h
        obtain ⟨h1, h2, h3⟩ := ih (some b) res h
        have hb : b.impact_factor ≤ res.impact_factor := h2 b rfl
        refine ⟨?_, ?_, ?_⟩
        · rcases h1 with h1 | h1
          · exact Or.inl h1
          · exact Or.inr (List.mem_cons_of_mem a h1)
        · intro c hc
          cases hc
          exact hb
        · intro r hr
          rcases List.mem_cons.mp hr with h | h
          · rw [h]; exact le_trans (not_lt.mp hab) hb
          · exact h3 r h

/-- A result of `maxImpactRow` belongs to the row set and attains the
maximal impact factor. -/
lemma maxImpactRow_spec (rows : List Journal) (res : Journal)
    (h : maxImpactRow rows = some res) :
    res ∈ rows ∧ ∀ r ∈ rows, r.impact_factor ≤ res.impact_factor := by
  obtain ⟨h1, _, h3⟩ := maxImpactRow_go rows none res h
  rcases h1 with h1 | h1
  · cases h1
  · exact ⟨h1, h3⟩

/-- `maxImpactRow` of a non-empty row set finds a row. -/
lemma maxImpactRow_isSome (rows : List Journal) (h : rows ≠ []) :
    ∃ res, maxImpactRow rows = some res := by
  have hsome : ∀ (l : List Journal) (b : Journal), ∃ res,
      l.foldl
        (fun best r =>
          match best with
          | none => some r
          | some b => if r.impact_factor > b.impact_factor then some r else some b)
        (some b) = some res := by
    intro l
    induction l with
    | nil => intro b; exact ⟨b, rfl⟩
    | cons a t ih =>
      intro b
      simp only [List.foldl_cons]
      by_cases hab : a.impact_factor > b.impact_factor
      · rw [if_pos hab]; exact ih a
      · rw [if_neg hab]; exact ih b
  cases rows with
  | nil => exact absurd rfl h
  | cons a t => simpa [maxImpactRow] using hsome t a

/-- Every view returned by `get_journal_by_issn` is the view of a stored
row. -/
lemma get_journal_by_issn_mem (db : List Journal) (issn : String) (v : JournalView)
    (h : get_journal_by_issn db issn = some v) : ∃ j ∈ db, v = j.toView := by
  unfold get_journal_by_issn at h
  by_cases hi : issn = ""
  · rw [if_pos hi] at h; cases h
  · rw [if_neg hi] at h
    obtain ⟨j, hj, hv⟩ := Option.map_eq_some'.mp h
    exact ⟨j, List.mem_of_find?_eq_some hj, hv.symm⟩

/-- Every view returned by `get_journal_by_name` is the view of a stored
row. -/
lemma get_journal_by_name_mem (db : List Journal) (name : String) (v : JournalView)
    (h : get_journal_by_name db name = some v) : ∃ j ∈ db, v = j.toView := by
  unfold get_journal_by_name at h
  by_cases hn : name = ""
  · rw [if_pos hn] at h; cases h
  · rw [if_neg hn] at h
    cases hfind : db.find? (exactNameMatch name) with
    | some r =>
      rw [hfind] at h
      cases h
      exact ⟨r, List.mem_of_find?_eq_some hfind, rfl⟩
    | none =>
      rw [hfind] at h
      obtain ⟨j, hj, hv⟩ := Option.map_eq_some'.mp h
      obtain ⟨hmem, _⟩ := maxImpactRow_spec _ j hj
      exact ⟨j, (List.mem_filter.mp hmem).1, hv.symm⟩

/-- Every view found by the scorer's two-stage lookup is the view of a
stored row. -/
lemma lookupJournalForPaper_mem (db : List Journal) (paper : Paper) (v : JournalView)
    (h : lookupJournalForPaper db paper = some v) : ∃ j ∈ db, v = j.toView := by
  unfold lookupJournalForPaper at h
  have hvenue : venueLookup db paper = some v → ∃ j ∈ db, v = j.toView := by
    intro hv
    unfold venueLookup at hv
    cases hven : paper.venue with
    | none => simp only [hven] at hv; cases hv
    | some venue =>
      simp only [hven] at hv
      by_cases he : venue = ""
      · rw [if_pos he] at hv; cases hv
      · rw [if_neg he] at hv
        exact get_journal_by_name_mem db venue v hv
  cases hiss : issnLookup db paper with
  | none => simp only [hiss] at h; exact hvenue h
  | some w =>
    simp only [hiss] at h
    cases h
    unfold issnLookup at hiss
    cases hei : extractIssn paper with
    | none => simp only [hei] at hiss; cases hiss
    | some issn =>
      simp only [hei] at hiss
      by_cases he : issn = ""
      · rw [if_pos he] at hiss; cases hiss
      · rw [if_neg he] at hiss
        exact get_journal_by_issn_mem db issn v hiss

/-- C1, counterexample to the claim as stated.  A journal stored through
`add_journal` with 0 citations over 10 works has impact factor 0.0; a paper
matched to it by venue with 0 citations scores
`min(100, 0.0 * 10) + min(20, 0) = 0`, below the claimed lower bound 10. -/
theorem c1_counterexample :
    get_paper_impact_score
        (add_journal []
          ⟨some "0001-0001", some "lowj", none, none, 10, 0, 0, none⟩)
        ⟨none, none, some "lowj", some 0, []⟩ = 0
    ∧ ¬ (10 ≤ get_paper_impact_score
        (add_journal []
          ⟨some "0001-0001", some "lowj", none, none, 10, 0, 0, none⟩)
        ⟨none, none, some "lowj", some 0, []⟩) := by
  have hcif : calculate_impact_factor 0 10 = 0 := by
    unfold calculate_impact_factor pyRound3 roundHalfEven
    norm_num
  have hdb : add_journal [] ⟨some "0001-0001", some "lowj", none, none, 10, 0, 0, none⟩
      = [⟨some "0001-0001", some "lowj", none, none, 0, 10, 0, 0⟩] := by
    unfold add_journal upsertRow
    rw [hcif]
    rfl
  have hname : get_journal_by_name
      [(⟨some "0001-0001", some "lowj", none, none, 0, 10, 0, 0⟩ : Journal)] "lowj"
      = some ⟨some "0001-0001", some "lowj", 0, 0, 10⟩ := by
    unfold get_journal_by_name
    rw [if_neg (by decide)]
    have hfind : [(⟨some "0001-0001", some "lowj", none, none, 0, 10, 0, 0⟩ : Journal)].find?
        (exactNameMatch "lowj")
        = some ⟨some "0001-0001", some "lowj", none, none, 0, 10, 0, 0⟩ :=
      List.find?_cons_of_pos _ (by decide)
    simp only [hfind]
    rfl
  have hlook : lookupJournalForPaper
      [(⟨some "0001-0001", some "lowj", none, none, 0, 10, 0, 0⟩ : Journal)]
      ⟨none, none, some "lowj", some 0, []⟩
      = some ⟨some "0001-0001", some "lowj", 0, 0, 10⟩ := by
    unfold lookupJournalForPaper issnLookup venueLookup extractIssn
    simp only [List.lookup]
    rw [if_neg (by decide)]
    exact hname
  have h0 : get_paper_impact_score
      (add_journal []
        ⟨some "0001-0001", some "lowj", none, none, 10, 0, 0, none⟩)
      ⟨none, none, some "lowj", some 0, []⟩ = 0 := by
    rw [hdb]
    unfold get_paper_impact_score
    simp only [hlook]
    norm_num
  exact ⟨h0, by rw [h0]; norm_num⟩

/-- C1, amended.  Provided every stored impact factor is non-negative (as
every row written by `add_journal` is), the composite score lies in
[0, 120] — not [10, 120]: a known journal with impact factor below 1
yields a base score below 10 — and a paper whose journal is found by
neither the identifier lookup nor the name lookup scores exactly
`10 + min(20, 2 * citationCount)` with an absent count read as 0. -/
theorem c1_amended_score_bounds (db : List Journal) (paper : Paper)
    (h : ∀ j ∈ db, 0 ≤ j.impact_factor) :
    0 ≤ get_paper_impact_score db paper
    ∧ get_paper_impact_score db paper ≤ 120
    ∧ (lookupJournalForPaper db paper = none →
        get_paper_impact_score db paper
          = 10 + min 20 ((paper.citationCount.getD 0 : ℚ) * 2)) := by
  have hbonus0 : (0 : ℚ) ≤ min 20 ((paper.citationCount.getD 0 : ℚ) * 2) := by
    apply le_min
    · norm_num
    · positivity
  have hbonus20 : min 20 ((paper.citationCount.getD 0 : ℚ) * 2) ≤ 20 :=
    min_le_left _ _
  unfold get_paper_impact_score
  cases hj : lookupJournalForPaper db paper with
  | none =>
    simp only [hj]
    refine ⟨by linarith, by linarith, by simp⟩
  | some v =>
    simp only [hj]
    obtain ⟨j, hjm, hv⟩ := lookupJournalForPaper_mem db paper v hj
    have hvi : 0 ≤ v.impact_factor := by
      rw [hv]
      exact h j hjm
    have hbase0 : (0 : ℚ) ≤ min 100 (v.impact_factor * 10) := by
      apply le_min
      · norm_num
      · positivity
    have hbase100 : min 100 (v.impact_factor * 10) ≤ 100 := min_le_left _ _
    exact ⟨by linarith, by linarith, fun hc => by cases hc⟩

/-- Witness for the amended C1: the empty store and a paper with 3
citations. -/
theorem c1_witness :
    0 ≤ get_paper_impact_score [] ⟨none, none, none, some 3, []⟩
    ∧ get_paper_impact_score [] ⟨none, none, none, some 3, []⟩ ≤ 120
    ∧ (lookupJournalForPaper [] ⟨none, none, none, some 3, []⟩ = none →
        get_paper_impact_score [] ⟨none, none, none, some 3, []⟩
          = 10 + min 20 ((((⟨none, none, none, some 3, []⟩ : Paper).citationCount.getD 0 : ℕ) : ℚ) * 2)) :=
  c1_amended_score_bounds [] ⟨none, none, none, some 3, []⟩ (by simp)

/-- C7, counterexample to the claim as stated.  The store holds one journal
named "abc"; looking up "a_c" finds no exact match, and "a_c" — whether
taken literally or normalized — is not a substring of "abc", so the claim
demands not-found; but the code's fallback is SQL LIKE, whose `_` matches
any one character, so the lookup returns the "abc" record. -/
theorem c7_counterexample :
    get_journal_by_name [⟨some "x", some "abc", none, none, 1, 0, 0, 0⟩] "a_c"
      = some ⟨some "x", some "abc", 1, 0, 0⟩
    ∧ exactNameMatch "a_c" ⟨some "x", some "abc", none, none, 1, 0, 0, 0⟩ = false
    ∧ normalizeName "a_c" = "a_c"
    ∧ strContains (strLower "abc") (normalizeName "a_c") = false
    ∧ strContains (strLower "abc") "a_c" = false := by
  refine ⟨by decide, by decide, by decide, by decide, by decide⟩

/-- C7, amended.  For a non-empty name: an exact case-insensitive
display-name match, when one exists, is returned in preference to any
fallback match however high the latter's impact factor; with no exact
match, the fallback returns a record whose lowercased display name matches
the normalized name under SQL LIKE semantics — substring occurrence in
which an underscore kept by the normalization matches any single
character — choosing a record of maximal impact factor among such matches,
and not-found when no record matches; an empty name is not-found. -/
theorem c7_amended_name_lookup (db : List Journal) (name : String) :
    (name = "" → get_journal_by_name db name = none)
    ∧ (name ≠ "" → ∀ r ∈ db, exactNameMatch name r = true →
        ∃ res, res ∈ db ∧ exactNameMatch name res = true
          ∧ get_journal_by_name db name = some res.toView)
    ∧ (name ≠ "" → (∀ r ∈ db, exactNameMatch name r = false) →
        (get_journal_by_name db name = none
            ∧ ∀ r ∈ db, likeNameMatch (normalizeName name) r = false)
        ∨ (∃ res, res ∈ db ∧ likeNameMatch (normalizeName name) res = true
            ∧ get_journal_by_name db name = some res.toView
            ∧ ∀ r ∈ db, likeNameMatch (normalizeName name) r = true →
                r.impact_factor ≤ res.impact_factor)) := by
  refine ⟨fun hn => by simp [get_journal_by_name, hn], ?_, ?_⟩
  · intro hn r hr hm
    unfold get_journal_by_name
    rw [if_neg hn]
    cases hfind : db.find? (exactNameMatch name) with
    | none =>
      exact absurd hm (by simpa using List.find?_eq_none.mp hfind r hr)
    | some res =>
      exact ⟨res, List.mem_of_find?_eq_some hfind, List.find?_some hfind, by simp⟩
  · intro hn hno
    unfold get_journal_by_name
    rw [if_neg hn]
    have hfind : db.find? (exactNameMatch name) = none := by
      rw [List.find?_eq_none]
      intro x hx
      simp [hno x hx]
    rw [hfind]
    cases hflt : db.filter (likeNameMatch (normalizeName name)) with
    | nil =>
      left
      refine ⟨by simp [hflt, maxImpactRow], ?_⟩
      intro r hr
      have := List.filter_eq_nil_iff.mp hflt r hr
      simpa using this
    | cons a t =>
      right
      obtain ⟨res, hres⟩ := maxImpactRow_isSome (a :: t) (by simp)
      rw [← hflt] at hres
      obtain ⟨hmem, hmax⟩ := maxImpactRow_spec _ res hres
      refine ⟨res, (List.mem_filter.mp hmem).1, (List.mem_filter.mp hmem).2, ?_, ?_⟩
      · simp [hres]
      · intro r hr hlike
        exact hmax r (List.mem_filter.mpr ⟨hr, hlike⟩)

/-- Witness for the amended C7: an exact match beats a higher-impact
fallback match. -/
theorem c7_witness :
    ∃ res, res ∈ [(⟨some "1", some "journal of tests", none, none, 9, 0, 0, 0⟩ : Journal),
        ⟨some "2", some "Tests", none, none, 1, 0, 0, 0⟩]
      ∧ exactNameMatch "tests" res = true
      ∧ get_journal_by_name
          [⟨some "1", some "journal of tests", none, none, 9, 0, 0, 0⟩,
            ⟨some "2", some "Tests", none, none, 1, 0, 0, 0⟩] "tests"
          = some res.toView :=
  (c7_amended_name_lookup
      [⟨some "1", some "journal of tests", none, none, 9, 0, 0, 0⟩,
        ⟨some "2", some "Tests", none, none, 1, 0, 0, 0⟩] "tests").2.1
    (by decide) ⟨some "2", some "Tests", none, none, 1, 0, 0, 0⟩ (by simp) (by decide)

end LitReport
